import Mathlib

/-
  Verification of the labeler composition and refresh-loop engine of the
  ix-feature-discovery daemon.

  The Go sources are shallowly embedded: Go maps (map[string]string,
  map[string]int) become association lists in insertion order together with
  lookup/update functions reproducing map semantics; fallible Go calls
  (returning (T, error)) become Except String T; the external hardware
  library and the file system are parameters carrying the values those
  collaborators would return.
-/

namespace IXFD

/-! ## Label sets (Go map[string]string, pkg/label) -/

/-- A LabelSet: Go map[string]string modelled as an association list kept in
insertion order.  Keys produced by the program's own operations are unique. -/
abbrev Labels := List (String × String)

/-- Go map assignment m[k] = v: overwrite the existing entry for k, or append
a new entry when k is absent. -/
def setKV (m : Labels) (k v : String) : Labels :=
  if m.any (fun p => p.1 == k) then
    m.map (fun p => if p.1 == k then (k, v) else p)
  else m ++ [(k, v)]

/-- Go map read m[k] (as an option; Go returns the zero value when absent). -/
def getKV (m : Labels) (k : String) : Option String :=
  (m.find? (fun p => p.1 == k)).map Prod.snd

/-- The keys of a label set, in insertion order. -/
def keysOf (m : Labels) : List String := m.map Prod.fst

/-- The value of the last entry carrying key k, if any.  This is what a
sequence of Go map assignments for the listed (key, value) pairs leaves at k. -/
def lookupLast : Labels → String → Option String
  | [], _ => none
  | p :: rest, k =>
    match lookupLast rest k with
    | some v => some v
    | none => if p.1 == k then some p.2 else none

/-! ## Go string helpers (strings.Split, strings.Fields, strings.TrimSpace) -/

/-- Go strings.Split with a one-character separator, over character lists:
splits around every occurrence of the separator, keeping empty fragments;
the empty input yields one empty fragment. -/
def splitCh (sep : Char) : List Char → List (List Char)
  | [] => [[]]
  | c :: cs =>
    if c = sep then [] :: splitCh sep cs
    else
      match splitCh sep cs with
      | [] => [[c]]
      | f :: rest => (c :: f) :: rest

/-- Go strings.Split with a one-character separator, over strings. -/
def goSplit (sep : Char) (s : String) : List String :=
  (splitCh sep s.toList).map (fun cs => String.mk cs)

/-- The ASCII and Latin-1 characters Go unicode.IsSpace accepts (the
characters relevant to this program's inputs). -/
def goIsSpace (c : Char) : Bool :=
  c == ' ' || c == '\t' || c == '\n' || c == Char.ofNat 11 ||
  c == Char.ofNat 12 || c == '\r' || c == Char.ofNat 133 || c == Char.ofNat 160

/-- Go strings.TrimSpace. -/
def goTrimSpace (s : String) : String :=
  String.mk (((s.toList.dropWhile goIsSpace).reverse.dropWhile goIsSpace).reverse)

/-! ## ixmlDevice.GetName (src/unnamed/part_002, resource package)

The wrapper reads the raw vendor name string and takes
strings.Split(name, " ")[1]; the index is unchecked, so the operation has no
defined result (Go panics) when the raw string holds no space.  The missing
result is modelled as Option.none. -/

/-- ixmlDevice.GetName over the raw character list returned by the library:
the second space-separated token, when it exists. -/
def ixmlGetNameL (raw : List Char) : Option (List Char) :=
  (splitCh ' ' raw)[1]?

/-- ixmlDevice.GetName over the raw string. -/
def ixmlGetName (raw : String) : Option String :=
  (ixmlGetNameL raw.toList).map (fun cs => String.mk cs)

/-! ## sanitise and the machine-type labeler (src/unnamed/part_002, label package) -/

/-- The character class [A-Za-z0-9-_. ] kept by sanitise's regexp. -/
def allowedChar (c : Char) : Bool :=
  c.isAlpha || c.isDigit || c == '-' || c == '_' || c == '.' || c == ' '

/-- sanitise: strip characters outside [A-Za-z0-9-_. ], then join the
whitespace-separated fields with a single hyphen.  After the strip the only
whitespace character left is the space, so Go strings.Fields is splitting on
spaces and dropping empty fields. -/
def sanitise (input : String) : String :=
  let stripped := input.toList.filter allowedChar
  let fields := (splitCh ' ' stripped).filter (fun f => !f.isEmpty)
  String.intercalate "-" (fields.map (fun cs => String.mk cs))

/-- Modelled from the spec: the sentinel machine-type value "unknown"
(the label-package constants file is not among the sources). -/
def machineTypeUnknown : String := "unknown"

/-- Modelled from the spec: the label key namespace (spec: keys look like
prefix/gpu.count).  The constants file carrying the concrete value is not
among the sources; no claim depends on the value.  Source name: nodeLabelPrefix. -/
def labelNS : String := "iluvatar.ai"

/-- getMachineType: the empty path short-circuits to the sentinel without a
read; otherwise the file-read outcome (external, passed as a parameter) is
trimmed or the read error is propagated. -/
def getMachineType (path : String) (readResult : Except String String) :
    Except String String :=
  if path = "" then .ok machineTypeUnknown
  else
    match readResult with
    | .error e => .error ("could not open machine type file: " ++ e)
    | .ok data => .ok (goTrimSpace data)

/-- newMachineTypeLabeler: substitute the sentinel on a read failure (warn
only), sanitise, and return the single machine label.  Never fails. -/
def newMachineTypeLabeler (machineTypePath : String)
    (readResult : Except String String) : Except String Labels :=
  let machineType :=
    match getMachineType machineTypePath readResult with
    | .error _ => machineTypeUnknown
    | .ok mt => mt
  .ok [(labelNS ++ "/gpu.machine", sanitise machineType)]

/-! ## Device Query Adapter and the version labeler -/

instance {ε α : Type} [DecidableEq ε] [DecidableEq α] : DecidableEq (Except ε α) :=
  fun a b =>
  match a, b with
  | .error e, .error f =>
    if h : e = f then .isTrue (by rw [h]) else .isFalse (fun hc => by cases hc; exact h rfl)
  | .error _, .ok _ => .isFalse (fun hc => by cases hc)
  | .ok _, .error _ => .isFalse (fun hc => by cases hc)
  | .ok x, .ok y =>
    if h : x = y then .isTrue (by rw [h]) else .isFalse (fun hc => by cases hc; exact h rfl)

/-- A device handle as consumed by the resource labeler: the outcomes of its
two reads (external library calls, passed as data). -/
structure Device where
  getName : Except String String
  getTotalMemoryMB : Except String Nat
deriving DecidableEq

/-- The resource.Manager capability contract, as data: the outcomes of the
external library calls a cycle performs. -/
structure Manager where
  initResult : Except String Unit
  devices : Except String (List Device)
  driverVersion : Except String String
  cudaRuntimeVersion : Except String (Nat × Nat)

/-- ixmlVersionLabeler: split the driver version on the dot; 2 or 3
components are required (major, minor, optional revision); then read the
runtime version and emit the seven version labels. -/
def ixmlVersionLabeler (m : Manager) : Except String Labels :=
  match m.driverVersion with
  | .error e => .error ("error getting ix driver version: " ++ e)
  | .ok driverVersion =>
    let s := goSplit '.' driverVersion
    if s.length > 3 ∨ s.length < 2 then
      .error ("error getting driver version: Version \"" ++ driverVersion ++
        "\" does not match format \"X.Y[.Z]\"")
    else
      let driverMajor := (s[0]?).getD ""
      let driverMinor := (s[1]?).getD ""
      let driverRev := if s.length > 2 then (s[2]?).getD "" else ""
      match m.cudaRuntimeVersion with
      | .error e => .error ("error getting cuda driver version: " ++ e)
      | .ok (cudaMajor, cudaMinor) =>
        .ok [(labelNS ++ "/ix.driver-version.full", driverVersion),
             (labelNS ++ "/ix.driver-version.major", driverMajor),
             (labelNS ++ "/ix.driver-version.minor", driverMinor),
             (labelNS ++ "/ix.driver-version.revision", driverRev),
             (labelNS ++ "/cuda.runtime-version.full",
               toString cudaMajor ++ "." ++ toString cudaMinor),
             (labelNS ++ "/cuda.runtime-version.major", toString cudaMajor),
             (labelNS ++ "/cuda.runtime-version.minor", toString cudaMinor)]

/-! ## Label Compositor (labelerList.Labels, src/unnamed/part_002) -/

/-- Merge one label source's mapping into the accumulator map: Go's
for k, v := range labels { allLabels[k] = v }. -/
def mergeInto (acc : Labels) (ls : Labels) : Labels :=
  ls.foldl (fun a p => setKV a p.1 p.2) acc

/-- labelerList.Labels: invoke the sources in list order (each source is
represented by the outcome of its Labels() call), short-circuit on the first
failure wrapping its error, otherwise merge each result into the
accumulator so that later sources overwrite earlier ones on key collision. -/
def labelerListLabels : List (Except String Labels) → Labels → Except String Labels
  | [], acc => .ok acc
  | r :: rest, acc =>
    match r with
    | .error e => .error ("error generating labels: " ++ e)
    | .ok ls => labelerListLabels rest (mergeInto acc ls)

/-- labelerList.Labels starting from the fresh empty accumulator map. -/
def mergeLabels (rs : List (Except String Labels)) : Except String Labels :=
  labelerListLabels rs []

/-! ## Resource Aggregator (newIXResourceLabeler, src/unnamed/part_002) -/

/-- Go counts[name]++ on a map[string]int: bump the entry, or create it at 1. -/
def bumpCount (counts : List (String × Nat)) (name : String) : List (String × Nat) :=
  if counts.any (fun p => p.1 == name) then
    counts.map (fun p => if p.1 == name then (p.1, p.2 + 1) else p)
  else counts ++ [(name, 1)]

/-- Go map[string]int read (zero value 0 when absent). -/
def getCount (counts : List (String × Nat)) (name : String) : Nat :=
  ((counts.find? (fun p => p.1 == name)).map Prod.snd).getD 0

/-- The int64 value Go's int(x) conversion yields on a uint64 read: the
representative x % 2^64 reinterpreted in two's complement, negative from
2^63 upward. -/
def goInt64OfUInt64 (x : Nat) : Int :=
  if x % 2 ^ 64 < 2 ^ 63 then (x % 2 ^ 64 : Int)
  else (x % 2 ^ 64 : Int) - 2 ^ 64

/-- strconv.Itoa(int(x)) for a uint64 x: the decimal string of the wrapped
signed value, so "-9223372036854775808" rather than "9223372036854775808"
for x = 2^63. -/
def itoaUInt64 (x : Nat) : String := toString (goInt64OfUInt64 x)

/-- The per-device loop of newIXResourceLabeler: read each device's name and
memory (either failure aborts the aggregation), bump the name's counter and
record the memory value as Go does, strconv.Itoa(int(memory)) on the uint64
read — wrapping, not the unbounded decimal. -/
def aggDevices : List Device → List (String × Nat) → Labels →
    Except String (List (String × Nat) × Labels)
  | [], counts, mems => .ok (counts, mems)
  | d :: rest, counts, mems =>
    match d.getName with
    | .error e => .error ("error getting device name: " ++ e)
    | .ok name =>
      match d.getTotalMemoryMB with
      | .error e => .error ("error getting device memory: " ++ e)
      | .ok memory =>
        aggDevices rest (bumpCount counts name) (setKV mems name (itoaUInt64 memory))

/-- The per-product-name label groups built after aggregation: one group of
exactly three labels per distinct product name.  The Go loop ranges over the
counts map (unspecified order); insertion order is used as the
representative order, the set of groups being order-independent. -/
def groupLabels (counts : List (String × Nat)) (mems : Labels) : List Labels :=
  counts.map (fun p =>
    [(labelNS ++ "/gpu.product", p.1),
     (labelNS ++ "/gpu.count", toString p.2),
     (labelNS ++ "/gpu.memory", (getKV mems p.1).getD "")])

/-- newIXResourceLabeler: query the devices, degenerate to the empty labeler
on an empty list, otherwise aggregate per product name, build the per-name
groups (a >1 group count only logs a warning) and merge them into the
resulting label set. -/
def newIXResourceLabeler (m : Manager) : Except String Labels :=
  match m.devices with
  | .error e => .error ("error getting devices: " ++ e)
  | .ok devices =>
    if devices.isEmpty then .ok []
    else
      match aggDevices devices [] [] with
      | .error e => .error e
      | .ok (counts, mems) =>
        match mergeLabels ((groupLabels counts mems).map .ok) with
        | .error e => .error e
        | .ok labels => .ok labels

/-! ## Device labeler and the per-cycle composition
(NewIXDeviceLabeler, src/unnamed/part_002; ixfd.run, src/cmd/ix-feature-discovery/main.go) -/

/-- NewIXDeviceLabeler: init the manager (shutdown deferred), query devices,
degenerate to the empty labeler on zero devices, otherwise compose the
machine-type, version and resource labelers.  The Go function returns the
Merge of the three labelers; its Labels() outcome is represented directly. -/
def NewIXDeviceLabeler (m : Manager) (machineTypeFile : String)
    (machineRead : Except String String) : Except String Labels :=
  match m.initResult with
  | .error e => .error ("failed to initialize resource manager: " ++ e)
  | .ok _ =>
    match m.devices with
    | .error e => .error ("error getting devices: " ++ e)
    | .ok devices =>
      if devices.isEmpty then .ok []
      else
        match newMachineTypeLabeler machineTypeFile machineRead with
        | .error e => .error ("failed to construct machine type labeler: " ++ e)
        | .ok mtl =>
          match ixmlVersionLabeler m with
          | .error e => .error ("failed to construct version labeler: " ++ e)
          | .ok vl =>
            match newIXResourceLabeler m with
            | .error e => .error ("error creating resource labeler: " ++ e)
            | .ok rl => mergeLabels [.ok mtl, .ok vl, .ok rl]

/-- NewLabelers: the device labeler, with its error wrapped. -/
def NewLabelers (m : Manager) (machineTypeFile : String)
    (machineRead : Except String String) : Except String Labels :=
  match NewIXDeviceLabeler m machineTypeFile machineRead with
  | .error e => .error ("error creating labeler: " ++ e)
  | .ok ls => .ok ls

/-- NewTimestampLabeler: the single timestamp label, or the empty labeler
when timestamping is disabled (never fails). -/
def NewTimestampLabeler (noTimestamp : Bool) (now : Int) : Labels :=
  if noTimestamp then []
  else [(labelNS ++ "/ix.timestamp", toString now)]

/-- One Composing step of ixfd.run: Merge(timestampLabeler, NewLabelers(...))
evaluated through labelerList.Labels. -/
def cycleLabels (m : Manager) (machineTypeFile : String)
    (machineRead : Except String String) (noTimestamp : Bool) (now : Int) :
    Except String Labels :=
  match NewLabelers m machineTypeFile machineRead with
  | .error e => .error e
  | .ok loopLabels =>
    mergeLabels [.ok (NewTimestampLabeler noTimestamp now), .ok loopLabels]

/-! ## Publication Sink, cluster mode (NodeFeatureOutputer.Output, src/pkg/label/output.go) -/

/-- The NodeFeature custom resource as far as Output reads and writes it:
TypeMeta and Spec.Features are set to the same constant value on every path
and are omitted. -/
structure NodeFeature where
  name : String
  metaLabels : Labels
  specLabels : Labels
deriving DecidableEq

/-- A write issued against the cluster store. -/
inductive StoreOp
  | createOp (nf : NodeFeature)
  | updateOp (nf : NodeFeature)
deriving DecidableEq

/-- Modelled from the spec: the fixed name base of the NodeFeature object
(name derived as fixed-base-dash-node-name); the constants file carrying the
concrete value is not among the sources.  Source name: nodeFeaturePrefix. -/
def nodeFeatureNameBase : String := "ix-feature-discovery"

/-- The NFD node-name object label key (external constant
NodeFeatureObjNodeNameLabel). -/
def nodeNameLabelKey : String := "nfd.node.kubernetes.io/node-name"

/-- Semantic equality of two label maps (equality.Semantic.DeepEqual on Go
maps): the same value, or joint absence, at every key of either map. -/
def labelsEquiv (a b : Labels) : Bool :=
  (keysOf a ++ keysOf b).all (fun k => getKV a k == getKV b k)

/-- equality.Semantic.DeepEqual on the modelled NodeFeature objects. -/
def nfEqual (a b : NodeFeature) : Bool :=
  a.name == b.name && labelsEquiv a.metaLabels b.metaLabels &&
    labelsEquiv a.specLabels b.specLabels

/-- The NodeFeature object Output builds for a node and label set (both on
the create path and as the recomputed update candidate). -/
def mkNodeFeature (nodename : String) (labels : Labels) : NodeFeature :=
  { name := nodeFeatureNameBase ++ "-" ++ nodename
    metaLabels := [(nodeNameLabelKey, nodename)]
    specLabels := labels }

/-- NodeFeatureOutputer.Output against a healthy store: stored is the object
the Get returns (none models the IsNotFound case).  Returns the writes
issued and the store content afterwards. -/
def output (nodename : String) (stored : Option NodeFeature) (labels : Labels) :
    Except String (List StoreOp × Option NodeFeature) :=
  if nodename = "" then .error "required flag node-name not set"
  else
    match stored with
    | none =>
      let nfr := mkNodeFeature nodename labels
      .ok ([StoreOp.createOp nfr], some nfr)
    | some nfr =>
      let nfrUpdated : NodeFeature :=
        { nfr with metaLabels := [(nodeNameLabelKey, nodename)], specLabels := labels }
      if nfEqual nfr nfrUpdated then .ok ([], some nfr)
      else .ok ([StoreOp.updateOp nfrUpdated], some nfrUpdated)

/-! ## Refresh loop / signal state machine (ixfd.run, src/cmd/ix-feature-discovery/main.go) -/

/-- The registered OS signals. -/
inductive Sig
  | sighup
  | sigint
  | sigterm
  | sigquit
deriving DecidableEq

/-- What can end one round of the idle select: the rerun timer fires, or a
registered signal arrives. -/
inductive LoopEvent
  | timerFire
  | signalArrive (s : Sig)
deriving DecidableEq

/-- What one call of ixfd.run produces: the restart decision and error of
the return statement, and what the deferred cleanup did on the way out. -/
structure RunOutcome where
  restart : Bool
  err : Option String
  removalAttempted : Bool
  removalError : Option String
deriving DecidableEq

/-- The rerun/select body of ixfd.run: iteration n composes the labels
(compose n bundles NewLabelers plus the Merge with the timestamp labeler)
and publishes them (outputRes n); a failure of either returns it with
restart false.  Then the select blocks: a timer event re-enters the rerun
label, a hang-up signal returns restart true, any other signal returns
restart false; none is the still-blocked loop that consumed every event. -/
def runSelect (compose : Nat → Except String Labels)
    (outputRes : Nat → Except String Unit) :
    Nat → List LoopEvent → Option (Bool × Option String)
  | n, evs =>
    match compose n with
    | .error e => some (false, some e)
    | .ok _ =>
      match outputRes n with
      | .error e => some (false, some e)
      | .ok _ =>
        match evs with
        | [] => none
        | LoopEvent.timerFire :: rest => runSelect compose outputRes (n + 1) rest
        | LoopEvent.signalArrive s :: _ =>
          if s = Sig.sighup then some (true, none) else some (false, none)

/-- ixfd.run: the select loop wrapped by the deferred output-file removal,
which runs on every return path, is skipped when the configured output file
is the empty string, and only logs its own failure (removeRes carries the
removeOutputFile outcome).  The removal happens before run returns, so its
fields are part of the same outcome record. -/
def run (compose : Nat → Except String Labels)
    (outputRes : Nat → Except String Unit) (outputFile : String)
    (removeRes : Except String Unit) (evs : List LoopEvent) : Option RunOutcome :=
  match runSelect compose outputRes 0 evs with
  | none => none
  | some (r, e) =>
    if outputFile = "" then some ⟨r, e, false, none⟩
    else
      some ⟨r, e, true,
        match removeRes with
        | .ok _ => none
        | .error re => some re⟩

/-! ## Derived notions used to state the theorems -/

/-- A device whose two reads both succeed, carrying the given product name
and memory size. -/
def mkDevice (p : String × Nat) : Device := ⟨.ok p.1, .ok p.2⟩

/-- First-occurrence deduplication: the order in which Go's counts map
acquires its keys. -/
def dedupFirst (acc : List String) (ns : List String) : List String :=
  ns.foldl (fun ks n => if n ∈ ks then ks else ks ++ [n]) acc

/-- The keys of a counts map, in insertion order. -/
def keysN (c : List (String × Nat)) : List String := c.map Prod.fst

/-- The total of the per-name device counters. -/
def sumCounts (c : List (String × Nat)) : Nat := (c.map Prod.snd).sum

/-! ## Lemmas on splitCh -/

theorem splitCh_ne_nil (sep : Char) (l : List Char) : splitCh sep l ≠ [] := by
  cases l with
  | nil => simp [splitCh]
  | cons c cs =>
    simp only [splitCh]
    by_cases h : c = sep
    · simp [h]
    · simp only [if_neg h]
      cases hs : splitCh sep cs <;> simp

theorem splitCh_head (sep : Char) (l : List Char) :
    (splitCh sep l).head? = some (l.takeWhile (fun c => c != sep)) := by
  induction l with
  | nil => rfl
  | cons c cs ih =>
    simp only [splitCh]
    by_cases h : c = sep
    · subst h
      simp [List.takeWhile_cons]
    · simp only [if_neg h]
      cases hs : splitCh sep cs with
      | nil => exact absurd hs (splitCh_ne_nil sep cs)
      | cons f r =>
        rw [hs] at ih
        simp only [List.head?_cons, Option.some.injEq] at ih
        simp [List.takeWhile_cons, h, ih]

theorem splitCh_not_mem (sep : Char) (l : List Char) (h : sep ∉ l) :
    splitCh sep l = [l] := by
  induction l with
  | nil => rfl
  | cons c cs ih =>
    simp only [List.mem_cons, not_or] at h
    have hc : ¬ c = sep := fun hcc => h.1 hcc.symm
    simp only [splitCh, if_neg hc, ih h.2]

theorem splitCh_append_sep (sep : Char) (pre post : List Char) (h : sep ∉ pre) :
    splitCh sep (pre ++ sep :: post) = pre :: splitCh sep post := by
  induction pre with
  | nil => simp [splitCh]
  | cons c cs ih =>
    simp only [List.mem_cons, not_or] at h
    have hc : ¬ c = sep := fun hcc => h.1 hcc.symm
    simp only [List.cons_append, splitCh, List.append_eq, if_neg hc, ih h.2]

/-- Claim C10: the device-name read ixmlDevice.GetName is total only when
the raw vendor name string carries at least one space: writing such a
string as a space-free part, the first space, and the rest, the read
returns the second space-separated token; for a space-free raw string the
unchecked token index is out of range and the operation has no defined
result (none). -/
theorem device_name_read_precondition (pre post : List Char) (hpre : ' ' ∉ pre) :
    ixmlGetNameL (pre ++ ' ' :: post) = some (post.takeWhile (fun c => c != ' ')) ∧
    ixmlGetNameL pre = none := by
  constructor
  · unfold ixmlGetNameL
    rw [splitCh_append_sep ' ' pre post hpre]
    cases hs : splitCh ' ' post with
    | nil => exact absurd hs (splitCh_ne_nil ' ' post)
    | cons f r =>
      have hh := splitCh_head ' ' post
      rw [hs] at hh
      simp only [List.head?_cons, Option.some.injEq] at hh
      simp [hh]
  · unfold ixmlGetNameL
    rw [splitCh_not_mem ' ' pre hpre]
    rfl

/-- Witness for C10 at the vendor string of the source's comment: stripping
the vendor token succeeds, and the read of a name without the vendor token
has no result. -/
theorem device_name_read_precondition_witness :
    ixmlGetNameL ("Iluvatar".toList ++ ' ' :: "BI-V150S".toList) =
      some ("BI-V150S".toList.takeWhile (fun c => c != ' ')) ∧
    ixmlGetNameL "Iluvatar".toList = none :=
  device_name_read_precondition "Iluvatar".toList "BI-V150S".toList (by decide)

/-- Claim C6: for every machine-type source path the machine-type labeler
succeeds with exactly one label whose value is the sanitized machine type:
the trimmed file content when the read succeeds, or the sentinel "unknown"
when the path is empty or the read fails; and sanitizing
"My Test   Machine!!" yields "My-Test-Machine". -/
theorem machine_type_labeler_total (path : String) (readResult : Except String String) :
    newMachineTypeLabeler path readResult =
      .ok [(labelNS ++ "/gpu.machine",
        sanitise (if path = "" then machineTypeUnknown
                  else
                    match readResult with
                    | .ok data => goTrimSpace data
                    | .error _ => machineTypeUnknown))] ∧
    sanitise "My Test   Machine!!" = "My-Test-Machine" := by
  constructor
  · unfold newMachineTypeLabeler getMachineType
    by_cases h : path = ""
    · simp [h]
    · simp only [if_neg h]
      cases readResult <;> simp
  · decide

/-- Claim C5: given the driver version string and a successful runtime
version read, the version labeler succeeds exactly when splitting the
driver version on the dot yields 2 or 3 components; "3.5" decomposes to
major "3", minor "5", empty revision, "3.5.2" to major "3", minor "5",
revision "2", while "3" and "1.2.3.4" are failures. -/
theorem version_labeler_split_arity (m : Manager) (v : String) (cm cn : Nat)
    (hv : m.driverVersion = .ok v) (hc : m.cudaRuntimeVersion = .ok (cm, cn)) :
    ((∃ ls, ixmlVersionLabeler m = .ok ls) ↔
      (goSplit '.' v).length = 2 ∨ (goSplit '.' v).length = 3) ∧
    (v = "3.5" → ixmlVersionLabeler m = .ok
        [(labelNS ++ "/ix.driver-version.full", "3.5"),
         (labelNS ++ "/ix.driver-version.major", "3"),
         (labelNS ++ "/ix.driver-version.minor", "5"),
         (labelNS ++ "/ix.driver-version.revision", ""),
         (labelNS ++ "/cuda.runtime-version.full", toString cm ++ "." ++ toString cn),
         (labelNS ++ "/cuda.runtime-version.major", toString cm),
         (labelNS ++ "/cuda.runtime-version.minor", toString cn)]) ∧
    (v = "3.5.2" → ixmlVersionLabeler m = .ok
        [(labelNS ++ "/ix.driver-version.full", "3.5.2"),
         (labelNS ++ "/ix.driver-version.major", "3"),
         (labelNS ++ "/ix.driver-version.minor", "5"),
         (labelNS ++ "/ix.driver-version.revision", "2"),
         (labelNS ++ "/cuda.runtime-version.full", toString cm ++ "." ++ toString cn),
         (labelNS ++ "/cuda.runtime-version.major", toString cm),
         (labelNS ++ "/cuda.runtime-version.minor", toString cn)]) ∧
    (v = "3" → ∃ e, ixmlVersionLabeler m = .error e) ∧
    (v = "1.2.3.4" → ∃ e, ixmlVersionLabeler m = .error e) := by
  refine ⟨?_, ?_, ?_, ?_, ?_⟩
  · simp only [ixmlVersionLabeler, hv, hc]
    by_cases hlen : (goSplit '.' v).length > 3 ∨ (goSplit '.' v).length < 2
    · rw [if_pos hlen]
      constructor
      · rintro ⟨ls, hok⟩
        cases hok
      · intro h2
        exfalso
        omega
    · rw [if_neg hlen]
      constructor
      · intro _
        omega
      · intro _
        exact ⟨_, rfl⟩
  · intro h
    subst h
    simp only [ixmlVersionLabeler, hv, hc]
    rfl
  · intro h
    subst h
    simp only [ixmlVersionLabeler, hv, hc]
    rfl
  · intro h
    subst h
    simp only [ixmlVersionLabeler, hv]
    exact ⟨_, rfl⟩
  · intro h
    subst h
    simp only [ixmlVersionLabeler, hv]
    exact ⟨_, rfl⟩

/-- Witness for C5 at the manager returning driver version "3.5" and
runtime version (10, 2). -/
theorem version_labeler_split_arity_witness :
    ixmlVersionLabeler ⟨.ok (), .ok [], .ok "3.5", .ok (10, 2)⟩ =
      .ok [(labelNS ++ "/ix.driver-version.full", "3.5"),
           (labelNS ++ "/ix.driver-version.major", "3"),
           (labelNS ++ "/ix.driver-version.minor", "5"),
           (labelNS ++ "/ix.driver-version.revision", ""),
           (labelNS ++ "/cuda.runtime-version.full", toString 10 ++ "." ++ toString 2),
           (labelNS ++ "/cuda.runtime-version.major", toString 10),
           (labelNS ++ "/cuda.runtime-version.minor", toString 2)] :=
  (version_labeler_split_arity ⟨.ok (), .ok [], .ok "3.5", .ok (10, 2)⟩ "3.5" 10 2
    rfl rfl).2.1 rfl

/-! ## Lemmas on map reads, writes and merging -/

theorem any_key_iff (m : Labels) (k : String) :
    m.any (fun p => p.1 == k) = true ↔ k ∈ keysOf m := by
  rw [List.any_eq_true]
  simp only [keysOf, List.mem_map, beq_iff_eq]

theorem getKV_cons (p : String × String) (rest : Labels) (k : String) :
    getKV (p :: rest) k = if p.1 = k then some p.2 else getKV rest k := by
  by_cases h : p.1 = k
  · rw [if_pos h]
    unfold getKV
    rw [List.find?_cons_of_pos _ (by simpa using h)]
    rfl
  · rw [if_neg h]
    unfold getKV
    rw [List.find?_cons_of_neg _ (by simpa using h)]

theorem getKV_none_iff (m : Labels) (k : String) :
    getKV m k = none ↔ k ∉ keysOf m := by
  induction m with
  | nil => simp [getKV, keysOf]
  | cons p rest ih =>
    rw [getKV_cons]
    simp only [keysOf, List.map_cons, List.mem_cons, not_or]
    by_cases h : p.1 = k
    · simp [h]
    · simp only [if_neg h]
      rw [ih]
      simp only [keysOf]
      constructor
      · intro hh
        exact ⟨fun hc => h hc.symm, hh⟩
      · intro hh
        exact hh.2

theorem getKV_mapSet (m : Labels) (k v k2 : String) :
    getKV (m.map (fun p => if p.1 == k then (k, v) else p)) k2 =
      if k2 = k then (if m.any (fun p => p.1 == k) then some v else none)
      else getKV m k2 := by
  induction m with
  | nil => by_cases h : k2 = k <;> simp [getKV, h]
  | cons p rest ih =>
    simp only [List.map_cons, List.any_cons]
    by_cases hp : p.1 = k
    · rw [if_pos (show (p.1 == k) = true by simpa using hp)]
      by_cases h2 : k2 = k
      · subst h2
        rw [getKV_cons]
        simp [hp]
      · rw [getKV_cons, if_neg (show ¬((k, v).1 = k2) from fun hh => h2 hh.symm), ih,
          if_neg h2, if_neg h2, getKV_cons,
          if_neg (show ¬(p.1 = k2) by rw [hp]; exact fun hh => h2 hh.symm)]
    · rw [if_neg (show ¬((p.1 == k) = true) by simpa using hp)]
      by_cases h2 : k2 = k
      · subst h2
        rw [getKV_cons, if_neg (fun hh => hp hh), ih, if_pos rfl, if_pos rfl]
        have hb : (p.1 == k2) = false := by simp [hp]
        simp only [hb, Bool.false_or]
      · rw [getKV_cons, ih, if_neg h2, if_neg h2, getKV_cons]

theorem getKV_append_single (m : Labels) (k v k2 : String) :
    getKV (m ++ [(k, v)]) k2 =
      match getKV m k2 with
      | some w => some w
      | none => if k2 = k then some v else none := by
  induction m with
  | nil =>
    show getKV [(k, v)] k2 = _
    rw [getKV_cons]
    by_cases h : k2 = k
    · rw [if_pos (show (k, v).1 = k2 from h.symm), if_pos h]
      rfl
    · rw [if_neg (show ¬((k, v).1 = k2) from fun hh => h hh.symm), if_neg h]
      rfl
  | cons p rest ih =>
    show getKV (p :: (rest ++ [(k, v)])) k2 = _
    rw [getKV_cons, getKV_cons]
    by_cases hpk : p.1 = k2
    · rw [if_pos hpk, if_pos hpk]
    · rw [if_neg hpk, if_neg hpk, ih]

theorem getKV_setKV (m : Labels) (k v k2 : String) :
    getKV (setKV m k v) k2 = if k2 = k then some v else getKV m k2 := by
  unfold setKV
  by_cases hany : m.any (fun p => p.1 == k) = true
  · rw [if_pos hany, getKV_mapSet]
    by_cases h2 : k2 = k <;> simp [h2, hany]
  · rw [if_neg hany, getKV_append_single]
    by_cases h2 : k2 = k
    · subst h2
      have hnone : getKV m k2 = none := by
        rw [getKV_none_iff]
        intro hmem
        exact hany ((any_key_iff m k2).mpr hmem)
      rw [hnone, if_pos rfl]
    · cases hg : getKV m k2 <;> simp [h2]

theorem mergeInto_get (ls : Labels) (acc : Labels) (k : String) :
    getKV (mergeInto acc ls) k =
      match lookupLast ls k with
      | some v => some v
      | none => getKV acc k := by
  induction ls generalizing acc with
  | nil => rfl
  | cons p rest ih =>
    show getKV (mergeInto (setKV acc p.1 p.2) rest) k = _
    rw [ih]
    simp only [lookupLast]
    cases hl : lookupLast rest k with
    | none =>
      rw [getKV_setKV]
      by_cases h2 : k = p.1
      · rw [if_pos h2, if_pos (show (p.1 == k) = true by simpa using h2.symm)]
      · rw [if_neg h2, if_neg (show ¬((p.1 == k) = true) by simpa using fun hh => h2 hh.symm)]
    | some w => rfl

theorem mergeInto_append (acc : Labels) (a b : Labels) :
    mergeInto acc (a ++ b) = mergeInto (mergeInto acc a) b := by
  simp [mergeInto, List.foldl_append]

theorem foldl_mergeInto_flatten (srcs : List Labels) (acc : Labels) :
    srcs.foldl mergeInto acc = mergeInto acc srcs.flatten := by
  induction srcs generalizing acc with
  | nil => rfl
  | cons a rest ih =>
    show rest.foldl mergeInto (mergeInto acc a) = _
    rw [ih, List.flatten_cons, mergeInto_append]

theorem lookupLast_append (a b : Labels) (k : String) :
    lookupLast (a ++ b) k =
      match lookupLast b k with
      | some v => some v
      | none => lookupLast a k := by
  induction a with
  | nil => cases hl : lookupLast b k <;> simp [lookupLast, hl]
  | cons p rest ih =>
    show (match lookupLast (rest ++ b) k with
          | some v => some v
          | none => if p.1 == k then some p.2 else none) = _
    rw [ih]
    cases hl : lookupLast b k <;> cases hr : lookupLast rest k <;>
      simp [lookupLast, hl, hr]

theorem lookupLast_not_mem (l : Labels) (k : String) (h : k ∉ keysOf l) :
    lookupLast l k = none := by
  induction l with
  | nil => rfl
  | cons p rest ih =>
    simp only [keysOf, List.map_cons, List.mem_cons, not_or] at h
    simp only [lookupLast, ih (by simpa [keysOf] using h.2)]
    rw [if_neg (show ¬((p.1 == k) = true) by simpa using fun hh => h.1 hh.symm)]

theorem lookupLast_nodup_mem (l : Labels) (k v : String)
    (hnd : (keysOf l).Nodup) (hmem : (k, v) ∈ l) : lookupLast l k = some v := by
  induction l with
  | nil => cases hmem
  | cons p rest ih =>
    simp only [keysOf, List.map_cons, List.nodup_cons] at hnd
    rcases List.mem_cons.mp hmem with h | h
    · subst h
      simp only [lookupLast]
      rw [lookupLast_not_mem rest k (by simpa [keysOf] using hnd.1)]
      simp
    · simp only [lookupLast, ih hnd.2 h]

theorem lookupLast_mem (l : Labels) (k v : String) (h : lookupLast l k = some v) :
    (k, v) ∈ l := by
  induction l with
  | nil => cases h
  | cons p rest ih =>
    simp only [lookupLast] at h
    cases hl : lookupLast rest k with
    | some w =>
      rw [hl] at h
      simp only [] at h
      cases h
      exact List.mem_cons_of_mem p (ih hl)
    | none =>
      rw [hl] at h
      obtain ⟨a, b⟩ := p
      by_cases hpk : a = k
      · rw [if_pos (by simpa using hpk)] at h
        injection h with hv
        subst hpk
        subst hv
        exact List.mem_cons_self _ _
      · rw [if_neg (by simpa using hpk)] at h
        cases h

theorem labelsFold_ok (srcs : List Labels) (acc : Labels) :
    labelerListLabels (srcs.map .ok) acc = .ok (srcs.foldl mergeInto acc) := by
  induction srcs generalizing acc with
  | nil => rfl
  | cons a rest ih =>
    show labelerListLabels (rest.map .ok) (mergeInto acc a) = _
    exact ih (mergeInto acc a)

/-- Claim C2: when every source in the ordered list succeeds, the
Compositor returns a label set in which any key carried by some source s,
with no source after s carrying it, holds s's value for it (so disjoint
sources contribute their entries unchanged, and on a collision the value of
the later source wins, whatever the values are), and every entry of the
result comes from one of the sources. -/
theorem compositor_union_override (pre post : List Labels) (s : Labels) (k v : String)
    (hnd : (keysOf s).Nodup) (hmem : (k, v) ∈ s) (hpost : ∀ t ∈ post, k ∉ keysOf t) :
    ∃ res, mergeLabels ((pre ++ s :: post).map .ok) = .ok res ∧
      getKV res k = some v ∧
      (∀ k2 v2, getKV res k2 = some v2 → ∃ t ∈ pre ++ s :: post, (k2, v2) ∈ t) := by
  refine ⟨(pre ++ s :: post).foldl mergeInto [], labelsFold_ok _ [], ?_, ?_⟩
  · rw [foldl_mergeInto_flatten, mergeInto_get]
    have hflat : (pre ++ s :: post).flatten = pre.flatten ++ (s ++ post.flatten) := by
      simp [List.flatten_append, List.flatten_cons]
    have hpostnone : lookupLast post.flatten k = none := by
      apply lookupLast_not_mem
      intro hk
      simp only [keysOf, List.mem_map] at hk
      obtain ⟨p, hpmem, hpk⟩ := hk
      obtain ⟨t, htmem, hpt⟩ := List.mem_flatten.mp hpmem
      exact hpost t htmem (List.mem_map.mpr ⟨p, hpt, hpk⟩)
    rw [hflat, lookupLast_append, lookupLast_append, hpostnone,
      lookupLast_nodup_mem s k v hnd hmem]
  · intro k2 v2 hres
    rw [foldl_mergeInto_flatten, mergeInto_get] at hres
    cases hl : lookupLast (pre ++ s :: post).flatten k2 with
    | none =>
      rw [hl] at hres
      cases hres
    | some w =>
      rw [hl] at hres
      simp only [] at hres
      cases hres
      exact List.mem_flatten.mp (lookupLast_mem _ _ _ hl)

/-- Witness for C2 at three concrete sources: the middle source's key "b"
is untouched by the later source, "c" collides and the later source wins. -/
theorem compositor_union_override_witness :
    ∃ res, mergeLabels (([[("a", "1")], [("b", "2"), ("c", "0")], [("c", "3")]]).map .ok) =
        .ok res ∧
      getKV res "b" = some "2" ∧
      (∀ k2 v2, getKV res k2 = some v2 →
        ∃ t ∈ [[("a", "1")]] ++ [("b", "2"), ("c", "0")] :: [[("c", "3")]], (k2, v2) ∈ t) :=
  compositor_union_override [[("a", "1")]] [[("c", "3")]] [("b", "2"), ("c", "0")]
    "b" "2" (by decide) (by decide) (by decide)

/-- Claim C3: when a source in the ordered list fails, the Compositor
short-circuits in list order with that first failure (sources before it all
succeeded), wrapping its message, and returns no partial label set. -/
theorem compositor_error_short_circuit (pre : List Labels) (e : String)
    (rest : List (Except String Labels)) :
    mergeLabels (pre.map .ok ++ .error e :: rest) =
      .error ("error generating labels: " ++ e) ∧
    ∀ ls, mergeLabels (pre.map .ok ++ .error e :: rest) ≠ .ok ls := by
  have h : ∀ acc, labelerListLabels (pre.map .ok ++ .error e :: rest) acc =
      .error ("error generating labels: " ++ e) := by
    induction pre with
    | nil => intro acc; rfl
    | cons a p ih => intro acc; exact ih (mergeInto acc a)
  refine ⟨h [], ?_⟩
  intro ls hc
  simp only [mergeLabels] at hc
  rw [h []] at hc
  cases hc

/-- Witness for C3: a failing middle source short-circuits the merge. -/
theorem compositor_error_short_circuit_witness :
    mergeLabels ([[("a", "1")]].map .ok ++ .error "boom" :: [.ok [("c", "4")]]) =
      .error ("error generating labels: " ++ "boom") :=
  (compositor_error_short_circuit [[("a", "1")]] "boom" [.ok [("c", "4")]]).1

/-- Claim C4: in a cycle in which the adapter reports zero devices, the
Resource Aggregator returns the empty label set and no error. -/
theorem resource_empty_devices (m : Manager) (h : m.devices = .ok []) :
    newIXResourceLabeler m = .ok [] := by
  simp [newIXResourceLabeler, h]

/-- Witness for C4 at a manager reporting zero devices. -/
theorem resource_empty_devices_witness :
    newIXResourceLabeler ⟨.ok (), .ok [], .ok "3.5", .ok (10, 2)⟩ = .ok [] :=
  resource_empty_devices ⟨.ok (), .ok [], .ok "3.5", .ok (10, 2)⟩ rfl

/-! ## Lemmas on the per-name counters -/

theorem anyN_key_iff (c : List (String × Nat)) (k : String) :
    c.any (fun p => p.1 == k) = true ↔ k ∈ keysN c := by
  rw [List.any_eq_true]
  simp only [keysN, List.mem_map, beq_iff_eq]

theorem getCount_cons (p : String × Nat) (rest : List (String × Nat)) (k : String) :
    getCount (p :: rest) k = if p.1 = k then p.2 else getCount rest k := by
  by_cases h : p.1 = k
  · rw [if_pos h]
    unfold getCount
    rw [List.find?_cons_of_pos _ (by simpa using h)]
    rfl
  · rw [if_neg h]
    unfold getCount
    rw [List.find?_cons_of_neg _ (by simpa using h)]

theorem getCount_not_mem (c : List (String × Nat)) (k : String) (h : k ∉ keysN c) :
    getCount c k = 0 := by
  induction c with
  | nil => rfl
  | cons p rest ih =>
    simp only [keysN, List.map_cons, List.mem_cons, not_or] at h
    rw [getCount_cons, if_neg (fun hh => h.1 hh.symm)]
    exact ih (by simpa [keysN] using h.2)

theorem getCount_mapBump (c : List (String × Nat)) (n k : String) :
    getCount (c.map (fun p => if p.1 == n then (p.1, p.2 + 1) else p)) k =
      if k = n then (if n ∈ keysN c then getCount c n + 1 else 0)
      else getCount c k := by
  induction c with
  | nil => by_cases h : k = n <;> simp [getCount, h, keysN]
  | cons p rest ih =>
    obtain ⟨a, b⟩ := p
    simp only [List.map_cons]
    by_cases ha : a = n <;> by_cases hk : k = n
    · subst ha
      subst hk
      simp [getCount_cons, keysN]
    · subst ha
      have hnk : ¬a = k := fun hh => hk hh.symm
      simp [hk, keysN] at ih
      simp [getCount_cons, hk, hnk]
      all_goals simp [ih]
    · subst hk
      have hka : ¬k = a := fun hh => ha hh.symm
      simp [keysN] at ih
      simp [getCount_cons, ha, hka, keysN]
      all_goals simp [ih]
      all_goals simp only [List.mem_cons, hka, false_or]
    · simp [hk, keysN] at ih
      simp [getCount_cons, ha, hk]
      all_goals simp [ih]

theorem getCount_append_single (c : List (String × Nat)) (n k : String) (x : Nat) :
    getCount (c ++ [(n, x)]) k =
      if k ∈ keysN c then getCount c k else (if k = n then x else 0) := by
  induction c with
  | nil =>
    show getCount [(n, x)] k = _
    rw [getCount_cons]
    simp only [keysN, List.map_nil, List.not_mem_nil, if_false]
    by_cases h : k = n
    · rw [if_pos h.symm, if_pos h]
    · rw [if_neg (fun hh => h hh.symm), if_neg h]
      rfl
  | cons p rest ih =>
    obtain ⟨a, b⟩ := p
    show getCount ((a, b) :: (rest ++ [(n, x)])) k = _
    by_cases hp : a = k
    · subst hp
      simp [getCount_cons, keysN]
    · have hka : ¬k = a := fun hh => hp hh.symm
      simp [keysN] at ih
      simp [getCount_cons, hp, ih, keysN]
      all_goals simp only [List.mem_cons, hka, false_or]

theorem getCount_bump (c : List (String × Nat)) (n k : String) :
    getCount (bumpCount c n) k =
      if k = n then getCount c n + 1 else getCount c k := by
  unfold bumpCount
  by_cases hany : c.any (fun p => p.1 == n) = true
  · rw [if_pos hany, getCount_mapBump, if_pos ((anyN_key_iff c n).mp hany)]
  · rw [if_neg hany, getCount_append_single]
    have hnm : n ∉ keysN c := fun hh => hany ((anyN_key_iff c n).mpr hh)
    by_cases hk : k = n
    · subst hk
      rw [if_neg hnm, if_pos rfl, if_pos rfl, getCount_not_mem c _ hnm]
    · by_cases hmem : k ∈ keysN c
      · rw [if_pos hmem, if_neg hk]
      · rw [if_neg hmem, if_neg hk, if_neg hk, getCount_not_mem c _ hmem]

theorem keysN_bump (c : List (String × Nat)) (n : String) :
    keysN (bumpCount c n) =
      if n ∈ keysN c then keysN c else keysN c ++ [n] := by
  unfold bumpCount
  by_cases hany : c.any (fun p => p.1 == n) = true
  · rw [if_pos hany, if_pos ((anyN_key_iff c n).mp hany)]
    simp only [keysN, List.map_map]
    apply List.map_congr_left
    intro p _
    by_cases hp : p.1 = n <;> simp [hp]
  · rw [if_neg hany, if_neg (fun hh => hany ((anyN_key_iff c n).mpr hh))]
    simp [keysN]

theorem nodup_bump (c : List (String × Nat)) (n : String)
    (h : (keysN c).Nodup) : (keysN (bumpCount c n)).Nodup := by
  rw [keysN_bump]
  by_cases hm : n ∈ keysN c
  · rwa [if_pos hm]
  · rw [if_neg hm, ← List.concat_eq_append]
    exact List.Nodup.concat hm h

theorem mapBump_id (c : List (String × Nat)) (n : String) (h : n ∉ keysN c) :
    c.map (fun p => if p.1 == n then (p.1, p.2 + 1) else p) = c := by
  induction c with
  | nil => rfl
  | cons p rest ih =>
    simp only [keysN, List.map_cons, List.mem_cons, not_or] at h
    simp only [List.map_cons]
    rw [if_neg (show ¬((p.1 == n) = true) by simpa using fun hh => h.1 hh.symm),
      ih (by simpa [keysN] using h.2)]

theorem sumCounts_cons (p : String × Nat) (rest : List (String × Nat)) :
    sumCounts (p :: rest) = p.2 + sumCounts rest := by
  simp [sumCounts]

theorem sumCounts_mapBump (c : List (String × Nat)) (n : String)
    (hnd : (keysN c).Nodup) (hmem : n ∈ keysN c) :
    sumCounts (c.map (fun p => if p.1 == n then (p.1, p.2 + 1) else p)) =
      sumCounts c + 1 := by
  induction c with
  | nil => cases hmem
  | cons p rest ih =>
    obtain ⟨a, b⟩ := p
    simp only [keysN, List.map_cons, List.nodup_cons] at hnd
    simp only [keysN, List.map_cons, List.mem_cons] at hmem
    simp only [List.map_cons]
    rcases hmem with h | h
    · subst h
      rw [if_pos (by simp), mapBump_id rest n (by simpa [keysN] using hnd.1),
        sumCounts_cons, sumCounts_cons]
      omega
    · have han : ¬a = n := fun hh => hnd.1 (hh ▸ h)
      rw [if_neg (by simpa using han), sumCounts_cons, sumCounts_cons,
        ih hnd.2 (by simpa [keysN] using h)]
      omega

theorem sumCounts_bump (c : List (String × Nat)) (n : String)
    (hnd : (keysN c).Nodup) : sumCounts (bumpCount c n) = sumCounts c + 1 := by
  unfold bumpCount
  by_cases hany : c.any (fun p => p.1 == n) = true
  · rw [if_pos hany]
    exact sumCounts_mapBump c n hnd ((anyN_key_iff c n).mp hany)
  · rw [if_neg hany]
    simp [sumCounts]

/-! ## Lemmas on the aggregation loop -/

theorem agg_ok (ds : List (String × Nat)) (c : List (String × Nat)) (m : Labels) :
    aggDevices (ds.map mkDevice) c m =
      .ok (ds.foldl (fun cc p => bumpCount cc p.1) c,
           ds.foldl (fun mm p => setKV mm p.1 (itoaUInt64 p.2)) m) := by
  induction ds generalizing c m with
  | nil => rfl
  | cons p rest ih => exact ih (bumpCount c p.1) (setKV m p.1 (itoaUInt64 p.2))

theorem keysN_foldBump (ds : List (String × Nat)) (c : List (String × Nat)) :
    keysN (ds.foldl (fun cc p => bumpCount cc p.1) c) =
      dedupFirst (keysN c) (ds.map Prod.fst) := by
  induction ds generalizing c with
  | nil => rfl
  | cons p rest ih =>
    show keysN (List.foldl _ (bumpCount c p.1) rest) = _
    rw [ih, keysN_bump]
    rfl

theorem getCount_foldBump (ds : List (String × Nat)) (c : List (String × Nat))
    (k : String) :
    getCount (ds.foldl (fun cc p => bumpCount cc p.1) c) k =
      getCount c k + (ds.map Prod.fst).count k := by
  induction ds generalizing c with
  | nil => simp
  | cons p rest ih =>
    show getCount (List.foldl _ (bumpCount c p.1) rest) k = _
    rw [ih, getCount_bump]
    simp only [List.map_cons, List.count_cons]
    by_cases h : k = p.1
    · subst h
      simp only [if_pos rfl, beq_self_eq_true, if_true]
      omega
    · have hb : (p.1 == k) = false := by
        simp only [beq_eq_false_iff_ne, ne_eq]
        exact fun hh => h hh.symm
      simp only [if_neg h, hb, Bool.false_eq_true, if_false]
      omega

theorem nodup_foldBump (ds : List (String × Nat)) (c : List (String × Nat))
    (h : (keysN c).Nodup) :
    (keysN (ds.foldl (fun cc p => bumpCount cc p.1) c)).Nodup := by
  induction ds generalizing c with
  | nil => exact h
  | cons p rest ih => exact ih (bumpCount c p.1) (nodup_bump c p.1 h)

theorem sumCounts_foldBump (ds : List (String × Nat)) (c : List (String × Nat))
    (h : (keysN c).Nodup) :
    sumCounts (ds.foldl (fun cc p => bumpCount cc p.1) c) =
      sumCounts c + ds.length := by
  induction ds generalizing c with
  | nil => simp
  | cons p rest ih =>
    show sumCounts (List.foldl _ (bumpCount c p.1) rest) = _
    rw [ih (bumpCount c p.1) (nodup_bump c p.1 h), sumCounts_bump c p.1 h]
    simp only [List.length_cons]
    omega

theorem memsFold_eq_mergeInto (ds : List (String × Nat)) (m : Labels) :
    ds.foldl (fun mm p => setKV mm p.1 (itoaUInt64 p.2)) m =
      mergeInto m (ds.map (fun p => (p.1, itoaUInt64 p.2))) := by
  unfold mergeInto
  rw [List.foldl_map]

theorem getKV_memsFold (ds : List (String × Nat)) (k : String) :
    getKV (ds.foldl (fun mm p => setKV mm p.1 (itoaUInt64 p.2)) []) k =
      lookupLast (ds.map (fun p => (p.1, itoaUInt64 p.2))) k := by
  rw [memsFold_eq_mergeInto, mergeInto_get]
  cases h : lookupLast (ds.map (fun p => (p.1, itoaUInt64 p.2))) k <;> rfl

theorem entry_getCount (c : List (String × Nat)) (n : String) (x : Nat)
    (hnd : (keysN c).Nodup) (hmem : (n, x) ∈ c) : getCount c n = x := by
  induction c with
  | nil => cases hmem
  | cons p rest ih =>
    simp only [keysN, List.map_cons, List.nodup_cons] at hnd
    rcases List.mem_cons.mp hmem with h | h
    · rw [← h, getCount_cons, if_pos rfl]
    · have hnr : n ∈ List.map Prod.fst rest := List.mem_map.mpr ⟨(n, x), h, rfl⟩
      have hpn : ¬p.1 = n := fun hh => hnd.1 (hh ▸ hnr)
      rw [getCount_cons, if_neg hpn]
      exact ih hnd.2 h

theorem keys_mem_entry (c : List (String × Nat)) (n : String) (h : n ∈ keysN c) :
    ∃ x, (n, x) ∈ c := by
  simp only [keysN, List.mem_map] at h
  obtain ⟨p, hp, he⟩ := h
  exact ⟨p.2, by rw [← he]; simpa using hp⟩

theorem filter_keys_none (c : List (String × Nat)) (n : String)
    (h : n ∉ keysN c) : c.filter (fun p => p.1 == n) = [] := by
  induction c with
  | nil => rfl
  | cons p rest ih =>
    simp only [keysN, List.map_cons, List.mem_cons, not_or] at h
    rw [List.filter_cons_of_neg (by simpa using fun hh => h.1 hh.symm)]
    exact ih (by simpa [keysN] using h.2)

theorem filter_entry_singleton (c : List (String × Nat)) (n : String) (x : Nat)
    (hnd : (keysN c).Nodup) (hmem : (n, x) ∈ c) :
    c.filter (fun p => p.1 == n) = [(n, x)] := by
  induction c with
  | nil => cases hmem
  | cons p rest ih =>
    simp only [keysN, List.map_cons, List.nodup_cons] at hnd
    rcases List.mem_cons.mp hmem with h | h
    · have hh1 : p.1 = n := by rw [← h]
      rw [← h, List.filter_cons_of_pos (by simp),
        filter_keys_none rest n (show n ∉ keysN rest from hh1 ▸ hnd.1)]
    · have hnr : n ∈ List.map Prod.fst rest := List.mem_map.mpr ⟨(n, x), h, rfl⟩
      have hpn : ¬p.1 = n := fun hh => hnd.1 (hh ▸ hnr)
      rw [List.filter_cons_of_neg (by simpa using hpn)]
      exact ih hnd.2 h

theorem mem_dedupFirst (ns : List String) (acc : List String) (n : String) :
    n ∈ dedupFirst acc ns ↔ n ∈ acc ∨ n ∈ ns := by
  induction ns generalizing acc with
  | nil => simp [dedupFirst]
  | cons a rest ih =>
    show n ∈ dedupFirst (if a ∈ acc then acc else acc ++ [a]) rest ↔ _
    rw [ih]
    simp only [List.mem_cons]
    by_cases h : a ∈ acc
    · rw [if_pos h]
      constructor
      · rintro (hh | hh)
        · exact Or.inl hh
        · exact Or.inr (Or.inr hh)
      · rintro (hh | hh | hh)
        · exact Or.inl hh
        · exact Or.inl (hh ▸ h)
        · exact Or.inr hh
    · rw [if_neg h]
      simp only [List.mem_append, List.mem_singleton]
      rw [or_assoc]

/-- Claim C1: for a cycle whose device list carries two or more distinct
product names (every read succeeding), the aggregation succeeds — the
heterogeneity warning is non-fatal — and the groups it emits are exactly
one group per distinct product name, each group exactly the three labels
product = name, count = that name's device count in decimal, memory = the
value recorded last for that name as the code records it (strconv.Itoa of
the int64-wrapped uint64 read); the per-name counts sum to the total
device count. -/
theorem resource_aggregator_groups (m : Manager) (ds : List (String × Nat))
    (hm : m.devices = .ok (ds.map mkDevice))
    (hhet : ∃ p ∈ ds, ∃ q ∈ ds, p.1 ≠ q.1) :
    ∃ counts mems labels,
      aggDevices (ds.map mkDevice) [] [] = .ok (counts, mems) ∧
      newIXResourceLabeler m = .ok labels ∧
      (∀ n, n ∈ keysN counts ↔ n ∈ ds.map Prod.fst) ∧
      (∀ n, n ∈ ds.map Prod.fst →
        (groupLabels counts mems).filter
            (fun g => getKV g (labelNS ++ "/gpu.product") == some n) =
          [[(labelNS ++ "/gpu.product", n),
            (labelNS ++ "/gpu.count", toString ((ds.map Prod.fst).count n)),
            (labelNS ++ "/gpu.memory",
              (lookupLast (ds.map (fun p => (p.1, itoaUInt64 p.2))) n).getD "")]]) ∧
      sumCounts counts = ds.length := by
  refine ⟨ds.foldl (fun cc p => bumpCount cc p.1) [],
    ds.foldl (fun mm p => setKV mm p.1 (itoaUInt64 p.2)) [],
    (groupLabels (ds.foldl (fun cc p => bumpCount cc p.1) [])
      (ds.foldl (fun mm p => setKV mm p.1 (itoaUInt64 p.2)) [])).foldl mergeInto [],
    agg_ok ds [] [], ?_, ?_, ?_, ?_⟩
  case refine_1 =>
    obtain ⟨p, hp, q, hq, hne⟩ := hhet
    have hds : ds.map mkDevice ≠ [] := by
      cases ds with
      | nil => cases hp
      | cons x xs => simp
    simp only [newIXResourceLabeler, hm, List.isEmpty_eq_false.mpr hds,
      Bool.false_eq_true, if_false, agg_ok ds [] [], mergeLabels, labelsFold_ok]
  case refine_2 =>
    intro n
    rw [keysN_foldBump, mem_dedupFirst]
    simp [keysN]
  case refine_3 =>
    intro n hn
    have hnd : (keysN (ds.foldl (fun cc p => bumpCount cc p.1) [])).Nodup :=
      nodup_foldBump ds [] List.nodup_nil
    have hkeys : n ∈ keysN (ds.foldl (fun cc p => bumpCount cc p.1) []) := by
      rw [keysN_foldBump, mem_dedupFirst]
      simp only [keysN]
      exact Or.inr hn
    obtain ⟨x, hx⟩ := keys_mem_entry _ n hkeys
    have hxval : x = (ds.map Prod.fst).count n := by
      have := entry_getCount _ n x hnd hx
      rw [getCount_foldBump] at this
      simpa [getCount] using this.symm
    unfold groupLabels
    rw [List.filter_map]
    have hcong : (ds.foldl (fun cc p => bumpCount cc p.1) []).filter
        ((fun g => getKV g (labelNS ++ "/gpu.product") == some n) ∘
          (fun p => [(labelNS ++ "/gpu.product", p.1),
            (labelNS ++ "/gpu.count", toString p.2),
            (labelNS ++ "/gpu.memory",
              (getKV (ds.foldl (fun mm q => setKV mm q.1 (itoaUInt64 q.2)) []) p.1).getD "")])) =
        (ds.foldl (fun cc p => bumpCount cc p.1) []).filter (fun p => p.1 == n) := by
      apply List.filter_congr
      intro p _
      show (getKV ((labelNS ++ "/gpu.product", p.1) :: _) (labelNS ++ "/gpu.product") ==
        some n) = (p.1 == n)
      rw [getKV_cons, if_pos rfl]
      by_cases h : p.1 = n <;> simp [h]
    rw [hcong, filter_entry_singleton _ n x hnd hx, hxval, List.map_cons, List.map_nil,
      getKV_memsFold]
  case refine_4 =>
    rw [sumCounts_foldBump ds [] List.nodup_nil]
    simp [sumCounts]

/-- Witness for C1 at two devices of distinct product names A and B. -/
theorem resource_aggregator_groups_witness :
    ∃ counts mems labels,
      aggDevices ([("A", 16), ("B", 32)].map mkDevice) [] [] = .ok (counts, mems) ∧
      newIXResourceLabeler
          ⟨.ok (), .ok [⟨.ok "A", .ok 16⟩, ⟨.ok "B", .ok 32⟩], .ok "3.5", .ok (10, 2)⟩ =
        .ok labels ∧
      (∀ n, n ∈ keysN counts ↔ n ∈ [("A", 16), ("B", 32)].map Prod.fst) ∧
      (∀ n, n ∈ [("A", 16), ("B", 32)].map Prod.fst →
        (groupLabels counts mems).filter
            (fun g => getKV g (labelNS ++ "/gpu.product") == some n) =
          [[(labelNS ++ "/gpu.product", n),
            (labelNS ++ "/gpu.count",
              toString (([("A", 16), ("B", 32)].map Prod.fst).count n)),
            (labelNS ++ "/gpu.memory",
              (lookupLast ([("A", 16), ("B", 32)].map
                (fun p => (p.1, itoaUInt64 p.2))) n).getD "")]]) ∧
      sumCounts counts = [("A", 16), ("B", 32)].length :=
  resource_aggregator_groups
    ⟨.ok (), .ok [⟨.ok "A", .ok 16⟩, ⟨.ok "B", .ok 32⟩], .ok "3.5", .ok (10, 2)⟩
    [("A", 16), ("B", 32)] rfl
    ⟨("A", 16), by decide, ("B", 32), by decide, by decide⟩

/-! ## Lemmas on semantic equality of label maps -/

theorem labelsEquiv_refl (a : Labels) : labelsEquiv a a = true := by
  simp [labelsEquiv]

theorem nfEqual_refl (a : NodeFeature) : nfEqual a a = true := by
  simp [nfEqual, labelsEquiv_refl]

theorem labelsEquiv_false_of_ne (a b : Labels) (k : String)
    (h : getKV a k ≠ getKV b k) : labelsEquiv a b = false := by
  rw [Bool.eq_false_iff]
  intro htrue
  rw [labelsEquiv, List.all_eq_true] at htrue
  have hk : k ∈ keysOf a ++ keysOf b := by
    rcases hga : getKV a k with _ | v
    · rcases hgb : getKV b k with _ | w
      · exact absurd (hga.trans hgb.symm) h
      · apply List.mem_append_right
        by_contra hc
        rw [(getKV_none_iff b k).mpr hc] at hgb
        cases hgb
    · apply List.mem_append_left
      by_contra hc
      rw [(getKV_none_iff a k).mpr hc] at hga
      cases hga
  have hkk := htrue k hk
  simp only [beq_iff_eq] at hkk
  exact h hkk

/-- Claim C7: in cluster mode a publish issues a create when the object is
absent; when it is present an update is issued exactly when the recomputed
object differs from the stored one, so publishing the same label set twice
issues one create then zero writes, and publishing a label set differing in
a value from the stored object's issues exactly one update. -/
theorem output_create_update_idempotent (nodename : String) (ls ls2 : Labels)
    (hn : ¬nodename = "") (hdiff : ∃ k, getKV ls k ≠ getKV ls2 k) :
    output nodename none ls =
      .ok ([StoreOp.createOp (mkNodeFeature nodename ls)],
        some (mkNodeFeature nodename ls)) ∧
    output nodename (some (mkNodeFeature nodename ls)) ls =
      .ok ([], some (mkNodeFeature nodename ls)) ∧
    output nodename (some (mkNodeFeature nodename ls)) ls2 =
      .ok ([StoreOp.updateOp (mkNodeFeature nodename ls2)],
        some (mkNodeFeature nodename ls2)) ∧
    (∀ st : NodeFeature, ∃ ops st2,
      output nodename (some st) ls = .ok (ops, some st2) ∧
      ((ops = []) ↔
        nfEqual st
          { st with metaLabels := [(nodeNameLabelKey, nodename)], specLabels := ls } =
        true)) := by
  refine ⟨?_, ?_, ?_, ?_⟩
  · simp [output, hn]
  · simp [output, hn, mkNodeFeature, nfEqual, labelsEquiv_refl]
  · obtain ⟨k, hk⟩ := hdiff
    have hf : labelsEquiv ls ls2 = false := labelsEquiv_false_of_ne ls ls2 k hk
    simp [output, hn, mkNodeFeature, nfEqual, labelsEquiv_refl, hf]
  · intro st
    by_cases hc : nfEqual st
        { st with metaLabels := [(nodeNameLabelKey, nodename)], specLabels := ls } = true
    · exact ⟨[], st, by simp [output, hn, hc], by simp [hc]⟩
    · exact ⟨[StoreOp.updateOp
          { st with metaLabels := [(nodeNameLabelKey, nodename)], specLabels := ls }],
        { st with metaLabels := [(nodeNameLabelKey, nodename)], specLabels := ls },
        by simp [output, hn, hc], by simp [hc]⟩

/-- Witness for C7: against node "node1", republishing the stored label set
issues no write, and changing one value issues exactly one update. -/
theorem output_create_update_idempotent_witness :
    output "node1" (some (mkNodeFeature "node1" [("a", "1")])) [("a", "1")] =
      .ok ([], some (mkNodeFeature "node1" [("a", "1")])) ∧
    output "node1" (some (mkNodeFeature "node1" [("a", "1")])) [("a", "2")] =
      .ok ([StoreOp.updateOp (mkNodeFeature "node1" [("a", "2")])],
        some (mkNodeFeature "node1" [("a", "2")])) :=
  ⟨(output_create_update_idempotent "node1" [("a", "1")] [("a", "2")] (by decide)
      ⟨"a", by decide⟩).2.1,
   (output_create_update_idempotent "node1" [("a", "1")] [("a", "2")] (by decide)
      ⟨"a", by decide⟩).2.2.1⟩

/-! ## Lemmas on the refresh loop -/

theorem runSelect_replicate (compose : Nat → Except String Labels)
    (outputRes : Nat → Except String Unit)
    (hok : ∀ i, ∃ ls, compose i = .ok ls) (hout : ∀ i, outputRes i = .ok ())
    (n : Nat) (s : Sig) : ∀ k,
    runSelect compose outputRes k
        (List.replicate n LoopEvent.timerFire ++ [LoopEvent.signalArrive s]) =
      if s = Sig.sighup then some (true, none) else some (false, none) := by
  induction n with
  | zero =>
    intro k
    obtain ⟨ls, hls⟩ := hok k
    simp [runSelect, hls, hout k]
  | succ nn ih =>
    intro k
    obtain ⟨ls, hls⟩ := hok k
    rw [List.replicate_succ, List.cons_append]
    simp only [runSelect, hls, hout k]
    exact ih (k + 1)

/-- Claim C8: when a signal ends the idle wait (each earlier cycle having
composed and published without error), the run cycle returns restart true
with no error for a hang-up signal and restart false with no error for any
other registered signal; on every return path with an output file
configured the transient file removal is attempted before the return, and
a removal failure changes neither the restart decision nor the error. -/
theorem run_signal_decision (compose : Nat → Except String Labels)
    (outputRes : Nat → Except String Unit) (outputFile : String)
    (removeRes removeRes2 : Except String Unit) (n : Nat) (s : Sig)
    (hok : ∀ i, ∃ ls, compose i = .ok ls) (hout : ∀ i, outputRes i = .ok ())
    (hfile : ¬outputFile = "") :
    (s = Sig.sighup →
      run compose outputRes outputFile removeRes
          (List.replicate n LoopEvent.timerFire ++ [LoopEvent.signalArrive s]) =
        some ⟨true, none, true,
          match removeRes with | .ok _ => none | .error re => some re⟩) ∧
    (¬s = Sig.sighup →
      run compose outputRes outputFile removeRes
          (List.replicate n LoopEvent.timerFire ++ [LoopEvent.signalArrive s]) =
        some ⟨false, none, true,
          match removeRes with | .ok _ => none | .error re => some re⟩) ∧
    (∀ evs out, run compose outputRes outputFile removeRes evs = some out →
      out.removalAttempted = true) ∧
    (∀ evs, (run compose outputRes outputFile removeRes evs).map
        (fun o => (o.restart, o.err)) =
      (run compose outputRes outputFile removeRes2 evs).map
        (fun o => (o.restart, o.err))) := by
  refine ⟨?_, ?_, ?_, ?_⟩
  · intro hs
    rw [run.eq_def, runSelect_replicate compose outputRes hok hout n s 0, if_pos hs]
    simp [hfile]
  · intro hs
    rw [run.eq_def, runSelect_replicate compose outputRes hok hout n s 0, if_neg hs]
    simp [hfile]
  · intro evs out hrun
    rw [run.eq_def] at hrun
    cases hsel : runSelect compose outputRes 0 evs with
    | none =>
      rw [hsel] at hrun
      cases hrun
    | some re =>
      rw [hsel] at hrun
      obtain ⟨r, e⟩ := re
      simp only [if_neg hfile] at hrun
      cases hrun
      rfl
  · intro evs
    rw [run.eq_def, run.eq_def]
    cases hsel : runSelect compose outputRes 0 evs with
    | none => rfl
    | some re =>
      obtain ⟨r, e⟩ := re
      simp only [if_neg hfile]
      rfl

/-- Witness for C8: one timer cycle then a hang-up signal, with a failing
removal of the configured output file. -/
theorem run_signal_decision_witness :
    run (fun _ => .ok []) (fun _ => .ok ()) "/tmp/f" (.error "gone")
        (List.replicate 1 LoopEvent.timerFire ++
          [LoopEvent.signalArrive Sig.sighup]) =
      some ⟨true, none, true,
        match (.error "gone" : Except String Unit) with
        | .ok _ => none
        | .error re => some re⟩ :=
  (run_signal_decision (fun _ => .ok []) (fun _ => .ok ()) "/tmp/f" (.error "gone")
    (.ok ()) 1 Sig.sighup (fun _ => ⟨[], rfl⟩) (fun _ => rfl) (by decide)).1 rfl

/-- Claim C9: in a cycle in which the adapter reports zero devices, the
device labeler degenerates to the empty source as a whole, so the composed
label set of the cycle is exactly the timestamp labeler's output — at most
one label; machine-type and version labels are omitted as well. -/
theorem zero_devices_timestamp_only (m : Manager) (mtf : String)
    (mr : Except String String) (noTs : Bool) (now : Int)
    (hinit : m.initResult = .ok ()) (hdev : m.devices = .ok []) :
    cycleLabels m mtf mr noTs now = .ok (NewTimestampLabeler noTs now) ∧
    (NewTimestampLabeler noTs now).length ≤ 1 := by
  constructor
  · cases noTs with
    | false =>
      simp [cycleLabels, NewLabelers, NewIXDeviceLabeler, hinit, hdev,
        NewTimestampLabeler, mergeLabels, labelerListLabels, mergeInto, setKV]
    | true =>
      simp [cycleLabels, NewLabelers, NewIXDeviceLabeler, hinit, hdev,
        NewTimestampLabeler, mergeLabels, labelerListLabels, mergeInto, setKV]
  · cases noTs <;> simp [NewTimestampLabeler]

/-- Witness for C9 at a manager reporting zero devices with timestamping
enabled at time 99. -/
theorem zero_devices_timestamp_only_witness :
    cycleLabels ⟨.ok (), .ok [], .ok "3.5", .ok (10, 2)⟩ "/p" (.ok "mt") false 99 =
      .ok (NewTimestampLabeler false 99) ∧
    (NewTimestampLabeler false 99).length ≤ 1 :=
  zero_devices_timestamp_only ⟨.ok (), .ok [], .ok "3.5", .ok (10, 2)⟩ "/p" (.ok "mt")
    false 99 rfl rfl

end IXFD
